import Mathlib

/-!
# Form sidebar attachments manager

A shallow embedding of `frappe/public/js/frappe/form/sidebar/attachments.js`
(class `frappe.ui.form.Attachments`).

* JavaScript strings are Lean `String`s (sequences of code points, hence
  well-formed UTF-16: `encodeURI` never meets a lone surrogate).
* `undefined` / a missing property is `Option.none`.
* The manager reaches its data through `this.frm` and its DOM through
  `this.parent`; both are explicit fields of the state `Attachments`.
* Calls that leave the manager (server calls, messages, the uploader) are
  appended to an event log, in program order.
* An exception (`frappe.throw`, a `TypeError`) is the `error` case of `Except`.
* A server call is asynchronous: sending it and running its callback on the
  answer are separate operations. `reload_docinfo` is only recorded; its
  answer replaces the cache from outside the manager.
-/

set_option autoImplicit false

namespace Frappe

/-! ## Data model -/

/-- One entry of `frm.get_docinfo().attachments`. The property `name` is the
attachment's id. -/
structure Attachment where
  name : String
  file_name : String
  file_url : Option String
  is_private : Bool
deriving DecidableEq, Repr

/-- What the manager reads from `this.frm`: `doctype`, `docname`,
`doc.__islocal`, `meta.max_attachments` (absent or a number),
`get_docinfo().attachments` (absent or an array) and the answer of
`frappe.model.can_write(frm.doctype, frm.name)`. -/
structure Form where
  doctype : String
  docname : String
  islocal : Bool
  max_attachments : Option Int
  attachments : Option (List Attachment)
  can_write : Bool
deriving DecidableEq, Repr

/-- One `li.attachment-row` built by `add_attachment`: the link target, the
label, the id carried by the data pill, whether a remove action is attached,
and the icon (`lock` for a private file, `unlock` otherwise). -/
structure Row where
  href : String
  title : String
  fileid : String
  removable : Bool
  icon : String
deriving DecidableEq, Repr

/-- The part of the DOM under `this.parent` the manager changes: visibility of
the section, visibility of `.add-attachment-btn`, the class `has-attachments`
on `.attachments-label`, and the `.attachment-row` elements in document order
(each new row is inserted right after the label, so the newest comes first). -/
structure View where
  parent_visible : Bool
  add_attachment_visible : Bool
  has_attachments : Bool
  rows : List Row
deriving DecidableEq, Repr

/-- The options handed to `new frappe.ui.FileUploader`. The restriction
`max_number_of_files` is a JavaScript number; `none` stands for `NaN`. -/
structure UploaderOptions where
  doctype : String
  docname : String
  folder : String
  max_number_of_files : Option Int
deriving DecidableEq, Repr

/-- Calls that leave the manager. -/
inductive Event where
  | remove_attach (fid dt dn : String)
  | reload_docinfo
  | msgprint (message : String)
  | set_value (fieldname : String) (value : Option String)
  | file_uploader (opts : UploaderOptions)
  | dialog_remove
  | dialog_hide
  | callback
deriving DecidableEq, Repr

/-- What can be thrown: the message of `frappe.throw` in `max_reached`
(title and the limit put into the text), or a `TypeError` from reading a
property of `undefined`. -/
inductive Thrown where
  | limit_reached (title : String) (limit : Int)
  | type_error
deriving DecidableEq, Repr

/-- The manager: `this.frm`, the DOM under `this.parent`, the optional
`this.dialog` and `this.fieldname`, and the log of outgoing calls. -/
structure Attachments where
  frm : Form
  dom : View
  dialog : Bool
  fieldname : Option String
  log : List Event
deriving DecidableEq, Repr

/-! ## URL resolution -/

/-- Characters `encodeURI` leaves alone: letters, digits, the marks
`- _ . ! ~ * ' ( )`, the reserved `; / ? : @ & = + $ ,` and `#`. -/
def uri_unescaped (c : Char) : Bool :=
  c.isAlphanum ||
    c ∈ ['-', '_', '.', '!', '~', '*', Char.ofNat 39, '(', ')',
         ';', '/', '?', ':', '@', '&', '=', '+', '$', ',', '#']

/-- The UTF-8 bytes of a code point. -/
def utf8_bytes (n : Nat) : List Nat :=
  if n < 0x80 then [n]
  else if n < 0x800 then [0xC0 + n / 64, 0x80 + n % 64]
  else if n < 0x10000 then [0xE0 + n / 4096, 0x80 + n / 64 % 64, 0x80 + n % 64]
  else [0xF0 + n / 262144, 0x80 + n / 4096 % 64, 0x80 + n / 64 % 64, 0x80 + n % 64]

/-- One upper-case hexadecimal digit. -/
def hex_digit (d : Nat) : Char :=
  if d < 10 then Char.ofNat (48 + d) else Char.ofNat (55 + d)

/-- A byte as `%XX`. -/
def percent_byte (b : Nat) : List Char :=
  ['%', hex_digit (b / 16), hex_digit (b % 16)]

/-- The encoding of one character by `encodeURI`. -/
def encode_char (c : Char) : List Char :=
  if uri_unescaped c then [c] else (utf8_bytes c.toNat).flatMap percent_byte

/-- JavaScript `encodeURI`. -/
def encodeURI (s : String) : String :=
  String.mk (s.data.flatMap encode_char)

/-- JavaScript `s.replace(/#/g, "%23")`. -/
def replace_hash (s : String) : String :=
  String.mk (s.data.flatMap fun c => if c = '#' then ['%', '2', '3'] else [c])

/-- Whether `pat` occurs in `s` at position 0. -/
def starts_at : List Char → List Char → Bool
  | [], _ => true
  | _ :: _, [] => false
  | p :: ps, c :: cs => p = c && starts_at ps cs

/-- JavaScript `s.indexOf(pat)` on code points: the least position at which
`pat` occurs, `-1` when there is none. -/
def index_of_from (pat : List Char) : List Char → Nat → Int
  | [], i => if starts_at pat [] then (i : Int) else -1
  | c :: cs, i => if starts_at pat (c :: cs) then (i : Int) else index_of_from pat cs (i + 1)

/-- JavaScript `s.indexOf(pat)`. -/
def indexOf (s pat : String) : Int :=
  index_of_from pat.data s.data 0

/-- JavaScript truthiness of an optional string: `undefined` and `""` are
falsy. -/
def truthy (s : Option String) : Bool :=
  match s with
  | none => false
  | some v => v ≠ ""

/-- `get_file_url(attachment)`. -/
def get_file_url (attachment : Attachment) : String :=
  let file_url : String :=
    if truthy attachment.file_url then attachment.file_url.getD ""
    else if indexOf attachment.file_name "files/" = 0 then "/" ++ attachment.file_name
    else "/files/" ++ attachment.file_name
  replace_hash (encodeURI file_url)

/-! ## Reading the set, the limit, rendering -/

/-- `get_attachments()`: `this.frm.get_docinfo().attachments || []`. An array,
even an empty one, is truthy; a missing property gives a fresh empty array. -/
def get_attachments (me : Attachments) : List Attachment :=
  match me.frm.attachments with
  | some l => l
  | none => []

/-- JavaScript truthiness of `frm.meta.max_attachments`: `undefined` and `0`
are falsy. -/
def limit_set (attachment_limit : Option Int) : Bool :=
  match attachment_limit with
  | none => false
  | some n => n ≠ 0

/-- The comparison `attachment_count >= attachment_limit` for a limit that is
a number. -/
def count_ge (attachment_count : Nat) (attachment_limit : Option Int) : Bool :=
  match attachment_limit with
  | none => false
  | some n => n ≤ (attachment_count : Int)

/-- `max_reached(raise_exception)`. The count is
`Object.keys(this.get_attachments()).length`, the number of entries of the
array. -/
def max_reached (me : Attachments) (raise_exception : Bool) : Except Thrown Bool :=
  let attachment_count := (get_attachments me).length
  let attachment_limit := me.frm.max_attachments
  if limit_set attachment_limit && count_ge attachment_count attachment_limit then
    if raise_exception then
      .error (.limit_reached "Attachment Limit Reached" (attachment_limit.getD 0))
    else .ok true
  else .ok false

/-- The own keys of the object `exists` after `exists[key] = true`, where
`exists` was created as `{}`. The key `__proto__` is the accessor inherited
from `Object.prototype`: the assignment runs its setter, which returns without
effect for a value that is neither an object nor null (ECMAScript,
`set Object.prototype.__proto__`), so no own property is created and
`hasOwnProperty.call(exists, "__proto__")` stays false. Every other key
becomes an own property. -/
def exists_assign (own_keys : List String) (key : String) : List String :=
  if key = "__proto__" then own_keys else key :: own_keys

/-- The `attachments.filter(...)` of `refresh`, with the own keys of `exists`
threaded through: an attachment is dropped when
`hasOwnProperty.call(exists, attachment.file_name)`, otherwise the key is
assigned and the attachment kept (the assignment evaluates to `true`). -/
def unique_filter : List String → List Attachment → List Attachment
  | _, [] => []
  | own_keys, attachment :: rest =>
    if attachment.file_name ∈ own_keys then unique_filter own_keys rest
    else attachment :: unique_filter (exists_assign own_keys attachment.file_name) rest

/-- The list `unique_attachments` of `refresh`, starting from `exists = {}`. -/
def unique_attachments (attachments : List Attachment) : List Attachment :=
  unique_filter [] attachments

/-- The row `add_attachment(attachment)` builds: the label falls back to the
URL when `file_name` is falsy, and the remove action is attached only when
`frappe.model.can_write` holds. -/
def attachment_row (me : Attachments) (attachment : Attachment) : Row :=
  let file_url := get_file_url attachment
  let fileid := attachment.name
  let file_name := if attachment.file_name = "" then file_url else attachment.file_name
  { href := file_url, title := file_name, fileid := fileid,
    removable := me.frm.can_write,
    icon := if attachment.is_private then "lock" else "unlock" }

/-- `add_attachment(attachment)`: builds one row and inserts it right after
the label, which gets the class `has-attachments`. -/
def add_attachment (me : Attachments) (attachment : Attachment) : Attachments :=
  { me with dom := { me.dom with has_attachments := true,
                                 rows := attachment_row me attachment :: me.dom.rows } }

/-- `refresh()`. -/
def refresh (me : Attachments) : Except Thrown Attachments := do
  if me.frm.islocal then
    return { me with dom := { me.dom with parent_visible := false } }
  let me1 : Attachments := { me with dom := { me.dom with parent_visible := true, rows := [] } }
  let reached ← max_reached me1 false
  let me2 : Attachments := { me1 with dom := { me1.dom with add_attachment_visible := !reached } }
  let attachments := get_attachments me2
  if attachments.length ≠ 0 then
    return (unique_attachments attachments).foldl add_attachment me2
  else
    return { me2 with dom := { me2.dom with has_attachments := false } }

/-! ## Lookup by URL, the uploader -/

/-- `get_file_id_from_file_url(file_url)`: the `$.each` loop stops at the
first attachment whose own `file_url` property is strictly equal to the
argument; `fid` stays `undefined` when there is none. -/
def get_file_id_from_file_url_loop (file_url : String) : List Attachment → Option String
  | [] => none
  | attachment :: rest =>
    if attachment.file_url = some file_url then some attachment.name
    else get_file_id_from_file_url_loop file_url rest

/-- `get_file_id_from_file_url(file_url)`. -/
def get_file_id_from_file_url (me : Attachments) (file_url : String) : Option String :=
  get_file_id_from_file_url_loop file_url (get_attachments me)

/-- The unit in the last place for a magnitude `a` of at least `2^53`: the
least power of two `u` (found by doubling, starting from the given `u`) with
`a / u < 2^53`. -/
def ulp_search : Nat → Nat → Nat → Nat
  | 0, _, u => u
  | fuel + 1, a, u => if a / u < 2 ^ 53 then u else ulp_search fuel a (2 * u)

/-- The IEEE 754 double nearest to an integer, ties going to the even
significand (a JavaScript number has a significand of 53 bits). Integers of
magnitude below `2^53` are doubles themselves. -/
def to_double (x : Int) : Int :=
  let a := x.natAbs
  if a < 2 ^ 53 then x
  else
    let u := ulp_search a a 1
    let q := a / u
    let r := a % u
    let q1 := if 2 * r < u then q else if u < 2 * r then q + 1 else if q % 2 = 0 then q else q + 1
    Int.sign x * ((q1 * u : Nat) : Int)

/-- JavaScript `max_attachments - length` for an integer-valued number and
the length of an array: `undefined - n` is `NaN`, and the difference of two
numbers is the double nearest to the exact difference. The length of an array
is below `2^32`; for a longer list, which no array can be, the difference is
left exact. -/
def js_sub (a : Option Int) (n : Nat) : Option Int :=
  match a with
  | none => none
  | some m => if n < 2 ^ 32 then some (to_double (m - (n : Int))) else some (m - (n : Int))

/-- `new_attachment(fieldname)`: removes an existing upload dialog, then opens
a `FileUploader`. The argument `fieldname` is not used by the body, and no
statement of the body throws. -/
def new_attachment (me : Attachments) : Except Thrown Attachments :=
  let me1 : Attachments := if me.dialog then { me with log := me.log ++ [.dialog_remove] } else me
  .ok { me1 with log := me1.log ++ [.file_uploader
    { doctype := me1.frm.doctype, docname := me1.frm.docname, folder := "Home/Attachments",
      max_number_of_files := js_sub me1.frm.max_attachments (get_attachments me1).length }] }

/-! ## Adding -/

/-- `add_to_attachments(attachment)`: returns early when an entry with the
same `name` exists, otherwise pushes onto the array `get_attachments()`
returned. When the docinfo has no `attachments` property that array is the
fresh `[]`, which nothing else holds, so the push is lost. -/
def add_to_attachments (me : Attachments) (attachment : Attachment) : Attachments :=
  let form_attachments := get_attachments me
  if form_attachments.any (fun x => x.name = attachment.name) then me
  else
    match me.frm.attachments with
    | some l => { me with frm := { me.frm with attachments := some (l ++ [attachment]) } }
    | none => me

/-- `update_attachment(attachment)`. -/
def update_attachment (me : Attachments) (attachment : Attachment) : Except Thrown Attachments :=
  if attachment.name ≠ "" then refresh (add_to_attachments me attachment)
  else .ok me

/-- `attachment_uploaded(attachment)`, the `on_success` handler of the
uploader. -/
def attachment_uploaded (me : Attachments) (attachment : Attachment) :
    Except Thrown Attachments := do
  let me1 : Attachments := if me.dialog then { me with log := me.log ++ [.dialog_hide] } else me
  let me2 ← update_attachment me1 attachment
  let me3 : Attachments := { me2 with log := me2.log ++ [.reload_docinfo] }
  if truthy me3.fieldname then
    return { me3 with log := me3.log ++ [.set_value (me3.fieldname.getD "") attachment.file_url] }
  else
    return me3

/-! ## Removing -/

/-- `remove_fileid(fileid)`. -/
def remove_fileid (me : Attachments) (fileid : String) : Except Thrown Attachments :=
  let attachments := get_attachments me
  let new_attachments := attachments.filter (fun attachment => attachment.name ≠ fileid)
  refresh { me with frm := { me.frm with attachments := some new_attachments } }

/-- The answer `r` of the server to one call: whether `r.exc` is set and
whether `r._server_messages` is. -/
structure Response where
  exc : Bool
  server_messages : Bool
deriving DecidableEq, Repr

/-- `remove_attachment(fileid, callback)` up to the point where the call is
sent. A falsy `fileid` sends nothing and only runs the callback, when one was
given. -/
def remove_attachment (me : Attachments) (fileid : Option String) (callback : Bool) :
    Attachments :=
  if !truthy fileid then
    if callback then { me with log := me.log ++ [.callback] } else me
  else
    { me with log := me.log ++ [.remove_attach (fileid.getD "") me.frm.doctype me.frm.docname] }

/-- The `callback: function (r, rt)` of the call sent by
`remove_attachment(fileid, callback)`, run when the answer arrives. -/
def remove_attachment_callback (me : Attachments) (fileid : String) (callback : Bool)
    (r : Response) : Except Thrown Attachments := do
  if r.exc then
    if !r.server_messages then
      return { me with log := me.log ++ [.msgprint "There were errors"] }
    else
      return me
  let me1 ← remove_fileid me fileid
  let me2 : Attachments := { me1 with log := me1.log ++ [.reload_docinfo] }
  if callback then return { me2 with log := me2.log ++ [.callback] } else return me2

/-- `remove_attachment_by_filename(filename, callback)`. -/
def remove_attachment_by_filename (me : Attachments) (filename : String) (callback : Bool) :
    Attachments :=
  remove_attachment me (get_file_id_from_file_url me filename) callback

/-- The body of the confirmation handler inside `remove_action(target_id)`
(the action exists only when `can_write` holds): finds the target, collects
`to_be_removed` and calls `remove_attachment` on each. Reading `file_name` of a
missing target throws as soon as the filter looks at an element. -/
def remove_action (me : Attachments) (target_id : String) : Except Thrown Attachments :=
  let target_attachment := (get_attachments me).find? (fun attachment => attachment.name = target_id)
  match target_attachment with
  | some target =>
    let to_be_removed :=
      (get_attachments me).filter (fun attachment => attachment.file_name = target.file_name)
    .ok (to_be_removed.foldl
      (fun m attachment => remove_attachment m (some attachment.name) false) me)
  | none => if (get_attachments me).length = 0 then .ok me else .error .type_error

/-- The callbacks of answered `remove_attach` calls, run in the order the
answers arrive; each answer comes with the `fileid` its call was sent for. -/
def deliver : Attachments → List (String × Response) → Except Thrown Attachments
  | me, [] => .ok me
  | me, (fileid, r) :: rest => do
    let me1 ← remove_attachment_callback me fileid false r
    deliver me1 rest

/-- The ids of the `remove_attach` calls in a log, in order. -/
def sent_fids : List Event → List String
  | [] => []
  | .remove_attach fid _ _ :: rest => fid :: sent_fids rest
  | _ :: rest => sent_fids rest

/-- The ids of the delete calls a confirmed remove of `target_id` sends: the
`remove_attach` calls it appends to the log. -/
def calls_sent (me : Attachments) (target_id : String) : List String :=
  match remove_action me target_id with
  | .ok me1 => sent_fids (me1.log.drop me.log.length)
  | .error _ => []

/-- A successful answer and a failed one (without server messages). -/
def answer_ok : Response := { exc := false, server_messages := false }

/-- A failed answer: `r.exc` is set, no server messages. -/
def answer_failed : Response := { exc := true, server_messages := false }

/-! ## The modules page

`process_data` of `frappe/desk/page/modules/modules.js`. -/

/-- A plain object with string values, as the list of the key and value pairs
in the order `$.map` visits them. -/
abbrev Options := List (String × String)

/-- One item of a section of module data, with the properties `process_data`
reads or writes. An absent property is `none`; `is_query_report` and `shown`
are read for truthiness only. -/
structure Item where
  type : Option String
  name : String
  doctype : Option String
  route : Option String
  link : Option String
  is_query_report : Bool
  filters : Option Options
  route_options : Option Options
  style : Option String
  shown : Bool
deriving DecidableEq, Repr

/-- One section of module data. -/
structure Section where
  items : List Item
deriving DecidableEq, Repr

/-- The globals `process_data` writes: `frappe.module_links` (a plain object
from module names to arrays of names; reading the key that was just assigned
an array returns that array, also for the key `__proto__`, whose accessor
hands back the array installed as prototype) and `frappe.route_options`. -/
structure Globals where
  module_links : String → Option (List String)
  route_options : Option Options

/-- The functions `process_data` calls that live outside the page:
`frappe.model.is_single`, `frappe.model.can_read` and the global
`strip(s, chars)`. -/
structure Env where
  is_single : String → Bool
  can_read : String → Bool
  strip : String → String → String

/-- JavaScript string conversion in a concatenation: `undefined` becomes the
text `undefined`. -/
def js_str (s : Option String) : String :=
  match s with
  | none => "undefined"
  | some v => v

/-- Characters `encodeURIComponent` leaves alone: letters, digits and the
marks `- _ . ! ~ * ' ( )`. -/
def uri_component_unescaped (c : Char) : Bool :=
  c.isAlphanum || c ∈ ['-', '_', '.', '!', '~', '*', Char.ofNat 39, '(', ')']

/-- JavaScript `encodeURIComponent`. -/
def encodeURIComponent (s : String) : String :=
  String.mk (s.data.flatMap fun c =>
    if uri_component_unescaped c then [c] else (utf8_bytes c.toNat).flatMap percent_byte)

/-- `$.map(obj, callback)` for a plain object and a callback that returns
strings: the results of `callback(value, key)`, in the order of the keys. -/
def jquery_map (obj : Options) (callback : String → String → String) : List String :=
  match obj with
  | [] => []
  | (key, value) :: rest => callback value key :: jquery_map rest callback

/-- The loop of `Array.prototype.join(sep)` from the second element on: `R`
is the text built so far, and each step appends `sep` and the next element. -/
def join_from (sep : String) : String → List String → String
  | R, [] => R
  | R, next :: rest => join_from sep (R ++ sep ++ next) rest

/-- `Array.prototype.join(sep)`: the empty text for an empty array, otherwise
the first element followed by the loop. -/
def array_join (sep : String) : List String → String
  | [] => ""
  | first :: rest => join_from sep first rest

/-- The text appended after `?`:
`$.map(item.route_options, function(value, key) ...).join('&')`. -/
def query_string (route_options : Options) : String :=
  array_join "&" (jquery_map route_options fun value key =>
    encodeURIComponent key ++ "=" ++ encodeURIComponent value)

/-- The body of the inner `forEach` of `process_data` for one item. The array
`frappe.module_links[module_name]` and `frappe.route_options` are threaded
through as `links` and `route_options`; the item is returned as mutated. -/
def process_item (env : Env) (links : List String) (route_options : Option Options)
    (item0 : Item) : (List String × Option Options) × Item :=
  let item : Item := { item0 with style := some "" }
  let (links, item) :=
    if item.type = some "doctype" then
      (links ++ [item.name], { item with doctype := some item.name })
    else (links, item)
  let (route_options, item) :=
    if !truthy item.route then
      if truthy item.link then
        (route_options, { item with route := some (env.strip (js_str item.link) "#") })
      else if item.type = some "doctype" then
        if env.is_single (js_str item.doctype) then
          (route_options, { item with route := some ("Form/" ++ js_str item.doctype) })
        else
          ((if item.filters.isSome then item.filters else route_options),
            { item with route := some ("List/" ++ js_str item.doctype) })
      else if item.type = some "report" && item.is_query_report then
        (route_options, { item with route := some ("query-report/" ++ item.name) })
      else if item.type = some "report" then
        (route_options,
          { item with route := some ("List/" ++ js_str item.doctype ++ "/Report/" ++ item.name) })
      else if item.type = some "page" then
        (route_options, { item with route := some item.name })
      else (route_options, item)
    else (route_options, item)
  let item : Item :=
    match item.route_options with
    | some opts => { item with route := some (js_str item.route ++ "?" ++ query_string opts) }
    | none => item
  let item : Item :=
    if item.type = some "page" || item.type = some "help" || item.type = some "report" ||
        (truthy item.doctype && env.can_read (js_str item.doctype)) then
      { item with shown := true }
    else item
  ((links, route_options), item)

/-- The loop `section.items.forEach(...)`. -/
def process_items (env : Env) :
    List String → Option Options → List Item → (List String × Option Options) × List Item
  | links, route_options, [] => ((links, route_options), [])
  | links, route_options, item :: rest =>
    let r := process_item env links route_options item
    let rs := process_items env r.1.1 r.1.2 rest
    (rs.1, r.2 :: rs.2)

/-- The loop `data.forEach(...)`. -/
def process_sections (env : Env) :
    List String → Option Options → List Section → (List String × Option Options) × List Section
  | links, route_options, [] => ((links, route_options), [])
  | links, route_options, sec :: rest =>
    let r := process_items env links route_options sec.items
    let rs := process_sections env r.1.1 r.1.2 rest
    (rs.1, { items := r.2 } :: rs.2)

/-- `process_data(module_name, data)`: starts `frappe.module_links[module_name]`
from the empty array, runs the loops, and leaves the globals and the mutated
data. -/
def process_data (env : Env) (g : Globals) (module_name : String) (data : List Section) :
    Globals × List Section :=
  let r := process_sections env [] g.route_options data
  ({ module_links := fun k => if k = module_name then some r.1.1 else g.module_links k,
     route_options := r.1.2 }, r.2)

/-! ## Specification-side notions -/

/-- The number of attachments after de-duplication by `file_name`: the number
of distinct file names in the list. -/
def deduplicated_count (attachments : List Attachment) : Nat :=
  ((attachments.map fun a => a.file_name).dedup).length

/-- De-duplication by `file_name` that keeps the first occurrence: the head is
kept and every later entry of the same name is dropped. -/
def first_by_file_name : List Attachment → List Attachment
  | [] => []
  | a :: rest => a :: (first_by_file_name rest).filter fun b => b.file_name ≠ a.file_name

/-- The URL `resolve_url` encodes, in the words of the specification: the
attachment's `file_url` when present and non-empty, otherwise `/` followed by
`file_name` when `file_name` starts with `files/`, otherwise `/files/` followed
by `file_name`. -/
def spec_unencoded_url (a : Attachment) : String :=
  match a.file_url with
  | some url =>
    if url ≠ "" then url
    else if "files/".data <+: a.file_name.data then "/" ++ a.file_name
    else "/files/" ++ a.file_name
  | none =>
    if "files/".data <+: a.file_name.data then "/" ++ a.file_name
    else "/files/" ++ a.file_name

/-- The encoding of the specification: URI-encoding, then every `#` replaced
by `%23`. -/
def spec_enc (u : String) : String :=
  replace_hash (encodeURI u)

/-- The output block of one input character under `encodeURI` followed by the
replacement of `#`: the three characters `%23` for `#`, the `encodeURI`
encoding for any other character. -/
def escape_char (c : Char) : List Char :=
  if c = '#' then ['%', '2', '3'] else encode_char c

/-- The route of an item without `route_options`, in the words of the
specification: a route the item already has (a truthy one) is kept; otherwise
a link (a truthy one) gives the link with `#` stripped; otherwise the type
decides. -/
def spec_plain_route (env : Env) (item : Item) : Option String :=
  if truthy item.route then item.route
  else if truthy item.link then some (env.strip (js_str item.link) "#")
  else if item.type = some "doctype" then
    if env.is_single item.name then some ("Form/" ++ item.name)
    else some ("List/" ++ item.name)
  else if item.type = some "report" then
    if item.is_query_report then some ("query-report/" ++ item.name)
    else some ("List/" ++ js_str item.doctype ++ "/Report/" ++ item.name)
  else if item.type = some "page" then some item.name
  else item.route

/-- The `&`-joined URI-component-encoded `key=value` pairs, in the words of
the specification: nothing for no pair, the encoded pair alone for one pair,
and otherwise the first encoded pair, `&`, and the rest joined the same way. -/
def spec_query : Options → String
  | [] => ""
  | [kv] => encodeURIComponent kv.1 ++ "=" ++ encodeURIComponent kv.2
  | kv :: kv2 :: rest =>
    encodeURIComponent kv.1 ++ "=" ++ encodeURIComponent kv.2 ++ "&" ++ spec_query (kv2 :: rest)

/-- The route of any item, in the words of the specification: with
`route_options` the value above is followed by `?` and the `&`-joined encoded
pairs. -/
def spec_route (env : Env) (item : Item) : Option String :=
  match item.route_options with
  | none => spec_plain_route env item
  | some opts => some (js_str (spec_plain_route env item) ++ "?" ++ spec_query opts)

/-- A stand-in for the global `strip(s, chars)` in the concrete evaluation: it
drops the characters `#` at both ends of `s`. -/
def sample_strip (s : String) (_chars : String) : String :=
  String.mk (((s.data.dropWhile fun c => c = '#').reverse.dropWhile fun c => c = '#').reverse)

/-- The collaborators of the concrete evaluation: `System Settings` is the
only single doctype, every doctype can be read. -/
def sample_env : Env :=
  { is_single := fun d => d = "System Settings", can_read := fun _ => true,
    strip := sample_strip }

/-- An item with a type and a name and no other property. -/
def bare (type : Option String) (name : String) : Item :=
  { type := type, name := name, doctype := none, route := none, link := none,
    is_query_report := false, filters := none, route_options := none, style := none,
    shown := false }

/-- Module data with one item for each way a route comes about. -/
def sample_data : List Section :=
  [ { items :=
      [ bare (some "doctype") "ToDo",
        bare (some "doctype") "System Settings",
        { bare (some "report") "R1" with is_query_report := true },
        { bare (some "report") "R2" with doctype := some "ToDo" },
        bare (some "report") "R3",
        bare (some "page") "backups" ] },
    { items :=
      [ bare (some "help") "H1",
        { bare (some "page") "P1" with route := some "x/y", link := some "#z" },
        { bare (some "page") "P2" with link := some "#modules/Desk" },
        { bare (some "doctype") "Note" with
          route_options := some [("status", "Open & new"), ("a b", "é")] },
        { bare (some "help") "H2" with route_options := some [("k", "v")] },
        { bare (some "page") "P3" with route_options := some [] } ] } ]


/-- The state used in the concrete evaluations below: a saved document
`ToDo/TD-1` with write permission, nothing rendered yet, no dialog, no bound
field, an empty log. -/
def sample (max_attachments : Option Int) (attachments : Option (List Attachment)) :
    Attachments :=
  { frm := { doctype := "ToDo", docname := "TD-1", islocal := false,
             max_attachments := max_attachments, attachments := attachments,
             can_write := true },
    dom := { parent_visible := true, add_attachment_visible := true,
             has_attachments := false, rows := [] },
    dialog := false, fieldname := none, log := [] }

/-- An attachment without `file_url`, public. -/
def plain (name file_name : String) : Attachment :=
  { name := name, file_name := file_name, file_url := none, is_private := false }

/-! ## Basic facts about the embedding -/

theorem max_reached_false_ok (me : Attachments) :
    max_reached me false = .ok true ∨ max_reached me false = .ok false := by
  unfold max_reached
  by_cases h : (limit_set me.frm.max_attachments &&
      count_ge (get_attachments me).length me.frm.max_attachments) = true
  · left; simp [h]
  · right; simp [h]

theorem foldl_add_attachment_keeps (l : List Attachment) (me : Attachments) :
    (l.foldl add_attachment me).frm = me.frm ∧ (l.foldl add_attachment me).log = me.log ∧
    (l.foldl add_attachment me).dialog = me.dialog ∧
    (l.foldl add_attachment me).fieldname = me.fieldname := by
  induction l generalizing me with
  | nil => simp
  | cons a l ih =>
    simp only [List.foldl_cons]
    obtain ⟨h1, h2, h3, h4⟩ := ih (add_attachment me a)
    exact ⟨h1, h2, h3, h4⟩

/-- `refresh` never throws, and changes nothing but the DOM. -/
theorem refresh_ok (me : Attachments) :
    ∃ me1, refresh me = .ok me1 ∧ me1.frm = me.frm ∧ me1.log = me.log ∧
      me1.dialog = me.dialog ∧ me1.fieldname = me.fieldname := by
  unfold refresh
  by_cases hl : me.frm.islocal = true
  · refine ⟨{ me with dom := { me.dom with parent_visible := false } }, ?_, rfl, rfl, rfl, rfl⟩
    simp [hl]
    rfl
  · have hmr := max_reached_false_ok
      { me with dom := { me.dom with parent_visible := true, rows := [] } }
    simp only [hl, Bool.false_eq_true, if_false]
    rcases hmr with h | h
    all_goals
      simp only [h, bind, Except.bind, pure, Except.pure]
      split
      · exact ⟨_, rfl, foldl_add_attachment_keeps _ _⟩
      · exact ⟨_, rfl, rfl, rfl, rfl, rfl⟩

/-! ## Rendering (C1) -/

theorem unique_filter_eq (own_keys : List String) (l : List Attachment)
    (h : ∀ a ∈ l, a.file_name ≠ "__proto__") :
    unique_filter own_keys l =
      (first_by_file_name l).filter fun b => b.file_name ∉ own_keys := by
  induction l generalizing own_keys with
  | nil => rfl
  | cons a rest ih =>
    have hrest : ∀ b ∈ rest, b.file_name ≠ "__proto__" := fun b hb => h b (by simp [hb])
    have ha : a.file_name ≠ "__proto__" := h a (by simp)
    unfold unique_filter first_by_file_name
    by_cases hin : a.file_name ∈ own_keys
    · simp only [hin, if_true, ih own_keys hrest, List.filter_cons, not_true_eq_false,
        decide_False, Bool.false_eq_true, if_false, List.filter_filter]
      apply List.filter_congr
      intro b _
      by_cases hb : b.file_name ∈ own_keys
      · simp [hb]
      · have : b.file_name ≠ a.file_name := fun e => hb (e ▸ hin)
        simp [hb, this]
    · simp only [hin, if_false, ih _ hrest, exists_assign, ha, List.filter_cons,
        not_false_eq_true, decide_True, if_true, List.filter_filter, List.cons.injEq, true_and]
      apply List.filter_congr
      intro b _
      by_cases hb : b.file_name = a.file_name
      · simp [hb]
      · by_cases hb2 : b.file_name ∈ own_keys
        · simp [hb, hb2]
        · simp [hb, hb2]

/-- When no file name is `__proto__`, the attachments `refresh` selects are
the first occurrences of each file name, in list order. -/
theorem unique_attachments_eq (l : List Attachment)
    (h : ∀ a ∈ l, a.file_name ≠ "__proto__") :
    unique_attachments l = first_by_file_name l := by
  unfold unique_attachments
  rw [unique_filter_eq [] l h]
  simp

theorem foldl_add_attachment_rows (l : List Attachment) (me : Attachments) :
    (l.foldl add_attachment me).dom.rows =
      (l.map (attachment_row me)).reverse ++ me.dom.rows := by
  induction l generalizing me with
  | nil => simp
  | cons a l ih =>
    rw [List.foldl_cons, ih]
    simp [add_attachment, attachment_row]

theorem foldl_add_attachment_visible (l : List Attachment) (me : Attachments) :
    (l.foldl add_attachment me).dom.parent_visible = me.dom.parent_visible ∧
    (l.foldl add_attachment me).dom.add_attachment_visible = me.dom.add_attachment_visible := by
  induction l generalizing me with
  | nil => simp
  | cons a l ih =>
    rw [List.foldl_cons]
    exact ih (add_attachment me a)

/-- For a saved document `refresh` shows the section and renders one row per
selected attachment, each inserted right after the label. -/
theorem refresh_saved (me : Attachments) (h : me.frm.islocal = false) :
    ∃ me1, refresh me = .ok me1 ∧ me1.dom.parent_visible = true ∧
      me1.dom.rows =
        ((unique_attachments (get_attachments me)).map (attachment_row me)).reverse := by
  unfold refresh
  have hmr := max_reached_false_ok
    { me with dom := { me.dom with parent_visible := true, rows := [] } }
  simp only [h, Bool.false_eq_true, if_false]
  rcases hmr with hm | hm
  all_goals
    simp only [hm, bind, Except.bind, pure, Except.pure]
    split
    · refine ⟨_, rfl, ?_, ?_⟩
      · rw [(foldl_add_attachment_visible _ _).1]
      · rw [foldl_add_attachment_rows]
        simp [get_attachments, attachment_row]
    · rename_i hlen
      refine ⟨_, rfl, rfl, ?_⟩
      have hnil : get_attachments me = [] := by
        have : (get_attachments me).length = 0 := by simpa [get_attachments] using hlen
        exact List.length_eq_zero.mp this
      simp [hnil, unique_attachments, unique_filter]

/-- C1: the de-duplication of `refresh` misses the file name `__proto__`. For
a saved document whose set holds two attachments `F1` and `F2` that both have
the file name `__proto__`, `refresh` passes both to `add_attachment`: two rows
are rendered for one file name (the newest first in the document), where the
claim asks for exactly one, the first occurrence. -/
theorem refresh_renders_proto_twice :
    (refresh (sample none (some [plain "F1" "__proto__", plain "F2" "__proto__"]))).map
        (fun me => me.dom.rows.map fun row => (row.fileid, row.title)) =
      .ok [("F2", "__proto__"), ("F1", "__proto__")] := by
  rfl

/-! ## The limit (C2) -/

/-- The condition tested by `max_reached`, spelled out. -/
theorem limit_condition (limit : Option Int) (count : Nat) :
    (limit_set limit && count_ge count limit) = true ↔
      ∃ m : Int, limit = some m ∧ m ≠ 0 ∧ m ≤ (count : Int) := by
  cases limit with
  | none => simp [limit_set, count_ge]
  | some n => simp [limit_set, count_ge]

/-- C2 (counterexample): with `max_attachments = 2` and two attachments that
share the file name `a.png`, `max_reached()` returns true although only one
attachment is left after de-duplication by `file_name`, so the stated
equivalence fails. -/
theorem max_reached_not_deduplicated :
    ¬ (max_reached (sample (some 2) (some [plain "F1" "a.png", plain "F2" "a.png"])) false
          = .ok true ↔
        ∃ m : Int, (some 2 : Option Int) = some m ∧ m ≠ 0 ∧
          m ≤ (deduplicated_count [plain "F1" "a.png", plain "F2" "a.png"] : Int)) := by
  intro h
  obtain ⟨m, hm, -, hle⟩ := h.mp rfl
  have h1 : deduplicated_count [plain "F1" "a.png", plain "F2" "a.png"] = 1 := by decide
  rw [h1] at hle
  cases hm
  omega

/-- C2 (amended): `max_reached()` returns true if and only if
`max_attachments` is set and non-zero and the number of entries of the
attachment list, duplicates of a file name included, is greater than or equal
to it; in every other case it returns false. -/
theorem max_reached_iff (me : Attachments) :
    (max_reached me false = .ok true ↔
      ∃ m : Int, me.frm.max_attachments = some m ∧ m ≠ 0 ∧
        m ≤ ((get_attachments me).length : Int)) ∧
    (max_reached me false = .ok false ↔
      ¬ ∃ m : Int, me.frm.max_attachments = some m ∧ m ≠ 0 ∧
        m ≤ ((get_attachments me).length : Int)) := by
  rw [← limit_condition]
  unfold max_reached
  by_cases h : (limit_set me.frm.max_attachments &&
      count_ge (get_attachments me).length me.frm.max_attachments) = true
  · simp [h]
  · simp [h]

/-! ## Upload success (C3) -/

theorem add_to_attachments_frm_congr (me me1 : Attachments) (a : Attachment)
    (h : me1.frm = me.frm) : (add_to_attachments me1 a).frm = (add_to_attachments me a).frm := by
  unfold add_to_attachments get_attachments
  rw [h]
  cases hl : me.frm.attachments with
  | none => simp only []; split <;> simp [h]
  | some l => simp only []; split <;> simp [h]

theorem add_to_attachments_new (me : Attachments) (l : List Attachment) (a : Attachment)
    (hl : me.frm.attachments = some l) (hx : ∀ b ∈ l, b.name ≠ a.name) :
    (add_to_attachments me a).frm.attachments = some (l ++ [a]) := by
  unfold add_to_attachments get_attachments
  rw [hl]
  have : l.any (fun x => decide (x.name = a.name)) = false := by
    simp only [List.any_eq_false, decide_eq_true_eq]
    exact hx
  simp [this]

theorem add_to_attachments_known (me : Attachments) (l : List Attachment) (a : Attachment)
    (hl : me.frm.attachments = some l) (hx : ∃ b ∈ l, b.name = a.name) :
    (add_to_attachments me a).frm.attachments = some l := by
  unfold add_to_attachments get_attachments
  rw [hl]
  have : l.any (fun x => decide (x.name = a.name)) = true := by
    simp only [List.any_eq_true, decide_eq_true_eq]
    exact hx
  simp [this, hl]

/-- `attachment_uploaded` never throws; with a truthy id the form data it
leaves is the one `add_to_attachments` produced. -/
theorem attachment_uploaded_ok (me : Attachments) (a : Attachment) (hne : a.name ≠ "") :
    ∃ me1, attachment_uploaded me a = .ok me1 ∧ me1.frm = (add_to_attachments me a).frm := by
  unfold attachment_uploaded update_attachment
  simp only [hne, ne_eq, not_false_eq_true, if_true]
  obtain ⟨m, hm, hfrm, -⟩ := refresh_ok (add_to_attachments
    (if me.dialog = true then { me with log := me.log ++ [.dialog_hide] } else me) a)
  have hc : (add_to_attachments
      (if me.dialog = true then { me with log := me.log ++ [.dialog_hide] } else me) a).frm
        = (add_to_attachments me a).frm := by
    apply add_to_attachments_frm_congr
    split <;> rfl
  simp only [hm, bind, Except.bind, pure, Except.pure]
  split
  · exact ⟨_, rfl, by rw [← hc, ← hfrm]⟩
  · exact ⟨_, rfl, by rw [← hc, ← hfrm]⟩

/-- C3 (counterexample): invoking `attachment_uploaded` twice does not always
leave exactly one entry with the uploaded id. An attachment whose id is the
empty string is skipped by the guard `if (attachment.name)` of
`update_attachment`; and when the document-info cache holds no attachment list
the insert goes to a temporary array. In both cases the set holds no entry
with that id afterwards. -/
theorem attachment_uploaded_twice_none :
    ((attachment_uploaded (sample none (some [])) (plain "" "a.png")).bind
        fun me1 => attachment_uploaded me1 (plain "" "a.png")).map
      (fun me2 => (get_attachments me2).countP fun b => b.name = "") = .ok 0 ∧
    ((attachment_uploaded (sample none none) (plain "F1" "a.png")).bind
        fun me1 => attachment_uploaded me1 (plain "F1" "a.png")).map
      (fun me2 => (get_attachments me2).countP fun b => b.name = "F1") = .ok 0 := by
  constructor <;> rfl

/-- C3 (amended): when the document-info cache holds an attachment list with
no entry of id X, and X is not the empty string, invoking
`attachment_uploaded` twice with an attachment of id X succeeds both times;
the set after the first invocation is the old list with the attachment
appended, the set after the second equals the set after the first, and it
holds exactly one entry whose id is X. -/
theorem attachment_uploaded_idempotent (me : Attachments) (l : List Attachment)
    (a : Attachment) (hl : me.frm.attachments = some l)
    (hx : ∀ b ∈ l, b.name ≠ a.name) (hne : a.name ≠ "") :
    ∃ me1 me2, attachment_uploaded me a = .ok me1 ∧ attachment_uploaded me1 a = .ok me2 ∧
      get_attachments me1 = l ++ [a] ∧
      get_attachments me2 = get_attachments me1 ∧
      (get_attachments me2).countP (fun b => b.name = a.name) = 1 := by
  obtain ⟨me1, h1, hf1⟩ := attachment_uploaded_ok me a hne
  obtain ⟨me2, h2, hf2⟩ := attachment_uploaded_ok me1 a hne
  have ha1 : me1.frm.attachments = some (l ++ [a]) := by
    rw [hf1]; exact add_to_attachments_new me l a hl hx
  have ha2 : me2.frm.attachments = some (l ++ [a]) := by
    rw [hf2]
    exact add_to_attachments_known me1 (l ++ [a]) a ha1 ⟨a, by simp, rfl⟩
  have hg1 : get_attachments me1 = l ++ [a] := by simp [get_attachments, ha1]
  have hg2 : get_attachments me2 = l ++ [a] := by simp [get_attachments, ha2]
  refine ⟨me1, me2, h1, h2, hg1, by rw [hg1, hg2], ?_⟩
  rw [hg2, List.countP_append]
  have h0 : l.countP (fun b => decide (b.name = a.name)) = 0 := by
    rw [List.countP_eq_zero]
    intro b hb
    simpa using hx b hb
  simp [h0, List.countP_cons]

/-- C3 (witness): the cache holds the list with the single entry `F1`; the
attachment `F2` is uploaded twice. -/
theorem attachment_uploaded_idempotent_witness :
    ∃ me1 me2,
      attachment_uploaded (sample (some 3) (some [plain "F1" "a.png"])) (plain "F2" "b.png")
        = .ok me1 ∧
      attachment_uploaded me1 (plain "F2" "b.png") = .ok me2 ∧
      get_attachments me1 = [plain "F1" "a.png"] ++ [plain "F2" "b.png"] ∧
      get_attachments me2 = get_attachments me1 ∧
      (get_attachments me2).countP (fun b => b.name = (plain "F2" "b.png").name) = 1 :=
  attachment_uploaded_idempotent (sample (some 3) (some [plain "F1" "a.png"]))
    [plain "F1" "a.png"] (plain "F2" "b.png") rfl (by decide) (by decide)

/-! ## Removing (C5, C4) -/

/-- The calls `remove_action` sends for a list `to_be_removed`: one per entry
with a truthy id, and nothing else changes. -/
theorem foldl_remove_attachment (L : List Attachment) (me : Attachments) :
    L.foldl (fun m attachment => remove_attachment m (some attachment.name) false) me =
      { me with
        log := me.log ++ (L.filter (fun a => a.name ≠ "")).map
                (fun a => Event.remove_attach a.name me.frm.doctype me.frm.docname) } := by
  induction L generalizing me with
  | nil => simp
  | cons a L ih =>
    rw [List.foldl_cons, ih]
    by_cases hn : a.name = ""
    · simp [remove_attachment, truthy, hn]
    · simp [remove_attachment, truthy, hn, List.filter_cons]

/-- What a confirmed remove does when the target is found: it sends one call
per same-named entry with a truthy id, in list order, and changes nothing
else. -/
theorem remove_action_eq (me : Attachments) (target_id : String) (target : Attachment)
    (hfind : (get_attachments me).find? (fun a => a.name = target_id) = some target) :
    remove_action me target_id = .ok
      { me with
        log := me.log ++
          ((get_attachments me).filter
                (fun a => a.file_name = target.file_name ∧ a.name ≠ "")).map
                (fun a => Event.remove_attach a.name me.frm.doctype me.frm.docname) } := by
  unfold remove_action
  simp only [hfind]
  rw [foldl_remove_attachment, List.filter_filter]
  simp only [Bool.decide_and, Bool.and_comm]

/-- C5 (counterexample): the set holds `F1` and an entry with an empty id,
both named `a.png`. A confirmed remove of `F1` sends one delete call only: the
entry with the empty id shares the file name and gets no call. -/
theorem remove_action_skips_empty_id :
    (remove_action (sample none (some [plain "F1" "a.png", plain "" "a.png"])) "F1").map
        (fun me1 => me1.log) = .ok [Event.remove_attach "F1" "ToDo" "TD-1"] := by
  rfl

/-- C5 (amended): for every attachment set and every target id present in it
(the target being the first entry with that id), a confirmed remove sends, in
list order, exactly one server delete call for each held attachment that has
a non-empty id and whose `file_name` equals the target's, with that
attachment's id as `fid` (and the form's doctype and docname); it sends no
call for an attachment with an empty id or a different `file_name`, and changes
nothing else. -/
theorem remove_action_calls (me : Attachments) (target_id : String) (target : Attachment)
    (hfind : (get_attachments me).find? (fun a => a.name = target_id) = some target) :
    remove_action me target_id = .ok
      { me with
        log := me.log ++
          ((get_attachments me).filter
                (fun a => a.file_name = target.file_name ∧ a.name ≠ "")).map
                (fun a => Event.remove_attach a.name me.frm.doctype me.frm.docname) } := by
  exact remove_action_eq me target_id target hfind

/-- C5 (witness): three attachments, two of them named `a.png`; removing
`F2` sends the calls for `F1` and `F2`, in this order, and none for `F3`. -/
theorem remove_action_calls_witness :
    (get_attachments
        (sample none (some [plain "F1" "a.png", plain "F2" "a.png", plain "F3" "b.png"]))).find?
      (fun a => a.name = "F2") = some (plain "F2" "a.png") ∧
    remove_action
        (sample none (some [plain "F1" "a.png", plain "F2" "a.png", plain "F3" "b.png"])) "F2"
      = .ok
      { sample none (some [plain "F1" "a.png", plain "F2" "a.png", plain "F3" "b.png"]) with
        log := [Event.remove_attach "F1" "ToDo" "TD-1", Event.remove_attach "F2" "ToDo" "TD-1"] } :=
  ⟨rfl, remove_action_calls
    (sample none (some [plain "F1" "a.png", plain "F2" "a.png", plain "F3" "b.png"]))
    "F2" (plain "F2" "a.png") rfl⟩

/-- `remove_fileid` never throws and leaves the filtered list. -/
theorem remove_fileid_ok (me : Attachments) (fileid : String) :
    ∃ me1, remove_fileid me fileid = .ok me1 ∧
      get_attachments me1 = (get_attachments me).filter (fun a => a.name ≠ fileid) := by
  unfold remove_fileid
  obtain ⟨m, hm, hfrm, -⟩ := refresh_ok
    { me with frm := { me.frm with
        attachments := some ((get_attachments me).filter (fun a => a.name ≠ fileid)) } }
  refine ⟨m, hm, ?_⟩
  simp only [get_attachments, hfrm]

/-- The callback of a delete call never throws; the set is untouched when the
answer carries `exc`, and loses the entries of that id otherwise. -/
theorem remove_attachment_callback_ok (me : Attachments) (fileid : String) (callback : Bool)
    (r : Response) :
    ∃ me1, remove_attachment_callback me fileid callback r = .ok me1 ∧
      get_attachments me1 =
        if r.exc then get_attachments me
        else (get_attachments me).filter (fun a => a.name ≠ fileid) := by
  unfold remove_attachment_callback
  by_cases hexc : r.exc = true
  · simp only [hexc, if_true]
    by_cases hs : r.server_messages = true
    · exact ⟨me, by simp [hs]; rfl, rfl⟩
    · refine ⟨{ me with log := me.log ++ [.msgprint "There were errors"] }, ?_, rfl⟩
      simp [hs]
      rfl
  · obtain ⟨m, hm, hset⟩ := remove_fileid_ok me fileid
    simp only [hexc, Bool.false_eq_true, if_false, hm, bind, Except.bind, pure, Except.pure]
    split
    · exact ⟨_, rfl, hset⟩
    · exact ⟨_, rfl, hset⟩

/-- After the answers have been delivered, the set holds the entries whose id
no successful answer names, in their original order. -/
theorem deliver_ok (answers : List (String × Response)) (me : Attachments) :
    ∃ me2, deliver me answers = .ok me2 ∧
      get_attachments me2 = (get_attachments me).filter
        (fun a => !answers.any (fun p => decide (p.1 = a.name) && !p.2.exc)) := by
  induction answers generalizing me with
  | nil => exact ⟨me, rfl, by simp⟩
  | cons p rest ih =>
    obtain ⟨fileid, r⟩ := p
    obtain ⟨m1, h1, hset1⟩ := remove_attachment_callback_ok me fileid false r
    obtain ⟨m2, h2, hset2⟩ := ih m1
    refine ⟨m2, ?_, ?_⟩
    · simp only [deliver, h1, bind, Except.bind]
      exact h2
    · rw [hset2, hset1]
      by_cases hexc : r.exc = true
      · simp [hexc]
      · simp only [hexc, Bool.false_eq_true, if_false, List.filter_filter]
        apply List.filter_congr
        intro a _
        simp only [List.any_cons, Bool.not_eq_true] at *
        by_cases hn : fileid = a.name
        · simp [hn, hexc]
        · have hn2 : ¬ a.name = fileid := fun h => hn h.symm
          simp [hn, hn2]

theorem sent_fids_map (L : List Attachment) (dt dn : String) :
    sent_fids (L.map fun a => Event.remove_attach a.name dt dn) = L.map fun a => a.name := by
  induction L with
  | nil => rfl
  | cons a L ih => simp [sent_fids, ih]

/-- C4 (counterexample): two sets on which the stated description of the
result fails. In the first the entry with the empty id shares the target's
file name and no delete call failed, yet it stays (no call is sent for it).
In the second two entries share the id `F1`; the successful delete of `F1`
also removes the entry named `y.png`, which does not share the target's file
name. -/
theorem remove_action_result_differs :
    ((remove_action (sample none (some [plain "" "x", plain "F1" "x"])) "F1").bind
        fun me1 => deliver me1 [("F1", answer_ok)]).map get_attachments
      = .ok [plain "" "x"] ∧
    ((remove_action (sample none (some [plain "F1" "x", plain "F1" "y.png"])) "F1").bind
        fun me1 => deliver me1 [("F1", answer_ok)]).map get_attachments
      = .ok [] := by
  constructor <;> rfl

/-- C4 (amended): for every attachment set whose ids are pairwise distinct,
every target id present in it, and every outcome of each delete call, the
answers arriving in any order: after a confirmed remove the local set consists
of exactly the entries that do not share the target's `file_name`, the
same-named entries with an empty id (no call is sent for them), and the
same-named entries whose delete call failed, in their original order. An
entry whose call failed is left in place, one whose call succeeded is gone. -/
theorem remove_action_result (me : Attachments) (target_id : String) (target : Attachment)
    (answers : List (String × Response))
    (hfind : (get_attachments me).find? (fun a => a.name = target_id) = some target)
    (hnodup : ((get_attachments me).map fun a => a.name).Nodup)
    (hperm : (answers.map Prod.fst).Perm (calls_sent me target_id)) :
    ∃ me1 me2, remove_action me target_id = .ok me1 ∧ deliver me1 answers = .ok me2 ∧
      get_attachments me2 = (get_attachments me).filter fun a =>
        a.file_name ≠ target.file_name ∨ a.name = "" ∨
          ∃ p ∈ answers, p.1 = a.name ∧ p.2.exc = true := by
  have hcalls := remove_action_eq me target_id target hfind
  simp only [calls_sent, hcalls, List.drop_left, sent_fids_map] at hperm
  obtain ⟨me2, h2, hset⟩ := deliver_ok answers
    { me with
      log := me.log ++
        ((get_attachments me).filter
              (fun a => a.file_name = target.file_name ∧ a.name ≠ "")).map
              (fun a => Event.remove_attach a.name me.frm.doctype me.frm.docname) }
  refine ⟨_, me2, hcalls, h2, ?_⟩
  rw [hset]
  show (get_attachments me).filter _ = _
  apply List.filter_congr
  intro a ha
  rw [Bool.eq_iff_iff]
  simp only [Bool.not_eq_true', List.any_eq_false, Bool.and_eq_true, decide_eq_true_eq,
    not_and, Bool.not_eq_true, Bool.not_eq_false']
  have hmem : ∀ f : String, f ∈ answers.map Prod.fst ↔
      ∃ b ∈ get_attachments me, (b.file_name = target.file_name ∧ b.name ≠ "") ∧ b.name = f := by
    intro f
    rw [hperm.mem_iff]
    simp [List.mem_map, List.mem_filter, and_assoc]
  have hnd : (answers.map Prod.fst).Nodup := by
    rw [hperm.nodup_iff]
    exact hnodup.sublist (List.Sublist.map _ (List.filter_sublist _))
  constructor
  · intro hall
    by_cases hfn : a.file_name = target.file_name
    · by_cases hid : a.name = ""
      · exact Or.inr (Or.inl hid)
      · right; right
        have hin : a.name ∈ answers.map Prod.fst := (hmem a.name).mpr ⟨a, ha, ⟨hfn, hid⟩, rfl⟩
        obtain ⟨p, hp, hpa⟩ := List.mem_map.mp hin
        refine ⟨p, hp, hpa, ?_⟩
        have := hall p hp hpa
        simpa using this
    · exact Or.inl hfn
  · rintro (hfn | hid | ⟨p, hp, hpa, hexc⟩) x hx hxa
    · obtain ⟨b, hb, ⟨hbf, -⟩, hbn⟩ := (hmem x.1).mp (List.mem_map_of_mem _ hx)
      have hab : b = a := List.inj_on_of_nodup_map hnodup hb ha (by rw [hbn, hxa])
      exact absurd (hab ▸ hbf) hfn
    · obtain ⟨b, -, ⟨-, hbne⟩, hbn⟩ := (hmem x.1).mp (List.mem_map_of_mem _ hx)
      exact absurd (by rw [hbn, hxa, hid]) hbne
    · have hxp : x = p := List.inj_on_of_nodup_map hnd hx hp (by rw [hxa, hpa])
      rw [hxp, hexc]
      simp

/-- C4 (witness): two entries named `x` with ids `F1` and `F2`; the call for
`F2` fails and the call for `F1` succeeds (the failure arriving first). The
resulting set holds the entry for `F2` and not the one for `F1`. -/
theorem remove_action_result_witness :
    ∃ me1 me2,
      remove_action (sample none (some [plain "F1" "x", plain "F2" "x"])) "F1" = .ok me1 ∧
      deliver me1 [("F2", answer_failed), ("F1", answer_ok)] = .ok me2 ∧
      get_attachments me2 = [plain "F2" "x"] :=
  remove_action_result (sample none (some [plain "F1" "x", plain "F2" "x"])) "F1"
    (plain "F1" "x") [("F2", answer_failed), ("F1", answer_ok)] rfl (by decide)
    (List.Perm.swap "F1" "F2" [])

/-! ## URL resolution (C6, C7) -/

theorem starts_at_iff (pat s : List Char) : starts_at pat s = true ↔ pat <+: s := by
  induction pat generalizing s with
  | nil => simp [starts_at]
  | cons p ps ih =>
    cases s with
    | nil => simp [starts_at]
    | cons c cs => simp [starts_at, ih, List.cons_prefix_cons]

theorem index_of_from_ge (pat s : List Char) (i : Nat) :
    index_of_from pat s i = -1 ∨ (i : Int) ≤ index_of_from pat s i := by
  induction s generalizing i with
  | nil =>
    unfold index_of_from
    split
    · right; exact le_refl _
    · left; rfl
  | cons c cs ih =>
    unfold index_of_from
    split
    · right; exact le_refl _
    · rcases ih (i + 1) with h | h
      · left; exact h
      · right; push_cast at h; omega

/-- The test `indexOf(pat) === 0` holds exactly when the string starts with
`pat`. -/
theorem indexOf_eq_zero_iff (s pat : String) : indexOf s pat = 0 ↔ pat.data <+: s.data := by
  unfold indexOf
  rw [← starts_at_iff]
  cases hs : s.data with
  | nil =>
    unfold index_of_from
    split <;> simp_all
  | cons c cs =>
    unfold index_of_from
    split
    · simp_all
    · rename_i hns
      have := index_of_from_ge pat.data cs (0 + 1)
      constructor
      · intro h0
        rw [h0] at this
        omega
      · intro h
        exact absurd h hns

/-- The URL `get_file_url` encodes is the one the specification describes. -/
theorem get_file_url_unencoded (attachment : Attachment) :
    get_file_url attachment = replace_hash (encodeURI (spec_unencoded_url attachment)) := by
  unfold get_file_url spec_unencoded_url
  have hidx := indexOf_eq_zero_iff attachment.file_name "files/"
  cases hu : attachment.file_url with
  | none =>
    by_cases hp : "files/".data <+: attachment.file_name.data
    · simp [truthy, hp, hidx.mpr hp]
    · have : ¬ indexOf attachment.file_name "files/" = 0 := fun h => hp (hidx.mp h)
      simp [truthy, hp, this]
  | some url =>
    by_cases hne : url = ""
    · by_cases hp : "files/".data <+: attachment.file_name.data
      · simp [truthy, hne, hp, hidx.mpr hp]
      · have : ¬ indexOf attachment.file_name "files/" = 0 := fun h => hp (hidx.mp h)
        simp [truthy, hne, hp, this]
    · simp [truthy, hne]

/-- C6: for every attachment, `get_file_url` returns `enc u`, where `u` is the
attachment's `file_url` when that is present and non-empty, otherwise `/` +
`file_name` when `file_name` starts with `files/`, otherwise `/files/` +
`file_name`, and `enc` is URI-encoding followed by the replacement of every
`#` by `%23`. -/
theorem get_file_url_eq (attachment : Attachment) :
    get_file_url attachment = spec_enc (spec_unencoded_url attachment) := by
  unfold spec_enc
  exact get_file_url_unencoded attachment

/-- C7 (counterexample): for an attachment without `file_url` whose file name
is `files/a.png` the result is not `/a.png`. -/
theorem get_file_url_files_not_stripped :
    get_file_url (plain "F1" "files/a.png") ≠ "/a.png" := by
  decide

/-- C7 (amended): `get_file_url` applied to an attachment that has no
`file_url` and whose `file_name` is `files/a.png` returns `/files/a.png`: the
file name is kept whole and prefixed with `/`. -/
theorem get_file_url_files (name : String) (is_private : Bool) :
    get_file_url { name := name, file_name := "files/a.png", file_url := none,
                   is_private := is_private } = "/files/a.png" := by
  rfl

/-! ## Lookup by URL (C8) -/

/-- C8 (counterexample): the only attachment has no `file_url`; its resolved
URL is `/files/a.png`, yet the lookup of `/files/a.png` finds nothing. -/
theorem get_file_id_ignores_resolved_url :
    get_file_url (plain "F1" "a.png") = "/files/a.png" ∧
    get_file_id_from_file_url (sample none (some [plain "F1" "a.png"])) "/files/a.png"
      = none := by
  constructor <;> rfl

theorem get_file_id_loop_some (url id : String) (l : List Attachment) :
    get_file_id_from_file_url_loop url l = some id ↔
      ∃ pre a post, l = pre ++ a :: post ∧ a.file_url = some url ∧ a.name = id ∧
        ∀ b ∈ pre, b.file_url ≠ some url := by
  induction l with
  | nil => simp [get_file_id_from_file_url_loop]
  | cons x rest ih =>
    unfold get_file_id_from_file_url_loop
    by_cases hx : x.file_url = some url
    · simp only [hx, if_true, Option.some.injEq]
      constructor
      · intro h
        exact ⟨[], x, rest, rfl, hx, h, by simp⟩
      · rintro ⟨pre, a, post, hl, ha, hid, hpre⟩
        cases pre with
        | nil =>
          simp only [List.nil_append, List.cons.injEq] at hl
          rw [hl.1]; exact hid
        | cons y pre =>
          simp only [List.cons_append, List.cons.injEq] at hl
          exact absurd hx (hl.1 ▸ hpre y (by simp))
    · simp only [hx, if_false, ih]
      constructor
      · rintro ⟨pre, a, post, hl, ha, hid, hpre⟩
        refine ⟨x :: pre, a, post, by simp [hl], ha, hid, ?_⟩
        intro b hb
        rcases List.mem_cons.mp hb with rfl | hb
        · exact hx
        · exact hpre b hb
      · rintro ⟨pre, a, post, hl, ha, hid, hpre⟩
        cases pre with
        | nil =>
          simp only [List.nil_append, List.cons.injEq] at hl
          exact absurd (hl.1 ▸ ha) hx
        | cons y pre =>
          simp only [List.cons_append, List.cons.injEq] at hl
          exact ⟨pre, a, post, hl.2, ha, hid, fun b hb => hpre b (by simp [hb])⟩

theorem get_file_id_loop_none (url : String) (l : List Attachment) :
    get_file_id_from_file_url_loop url l = none ↔ ∀ a ∈ l, a.file_url ≠ some url := by
  induction l with
  | nil => simp [get_file_id_from_file_url_loop]
  | cons x rest ih =>
    unfold get_file_id_from_file_url_loop
    by_cases hx : x.file_url = some url
    · simp [hx]
    · simp [hx, ih]

/-- C8 (amended): for every attachment list and every url string,
`get_file_id_from_file_url` returns the id of the first attachment in list
order whose own `file_url` property equals the given url exactly (the
property as stored: nothing is derived from `file_name` and nothing is
encoded), and returns nothing when no attachment has that `file_url`. -/
theorem get_file_id_from_file_url_first (me : Attachments) (url : String) :
    (∀ id, get_file_id_from_file_url me url = some id ↔
      ∃ pre a post, get_attachments me = pre ++ a :: post ∧ a.file_url = some url ∧
        a.name = id ∧ ∀ b ∈ pre, b.file_url ≠ some url) ∧
    (get_file_id_from_file_url me url = none ↔
      ∀ a ∈ get_attachments me, a.file_url ≠ some url) :=
  ⟨fun id => get_file_id_loop_some url id (get_attachments me),
   get_file_id_loop_none url (get_attachments me)⟩

/-! ## Opening the uploader (C9, C10) -/

/-- An integer of magnitude at most `2^53` is a double. -/
theorem to_double_exact (x : Int) (h : x.natAbs ≤ 2 ^ 53) : to_double x = x := by
  by_cases h1 : x.natAbs < 2 ^ 53
  · unfold to_double
    exact if_pos h1
  · have h3 : x = 2 ^ 53 ∨ x = -(2 ^ 53) := by omega
    rcases h3 with rfl | rfl <;> rfl

/-- The subtraction is exact when the difference has magnitude at most
`2^53`. -/
theorem js_sub_exact (m : Int) (n : Nat) (h : (m - (n : Int)).natAbs ≤ 2 ^ 53) :
    js_sub (some m) n = some (m - (n : Int)) := by
  simp only [js_sub]
  split
  · rw [to_double_exact _ h]
  · rfl

/-- Beyond `2^53` the subtraction rounds: `-2^53 - 1` is not a double, and the
tie goes to the even significand. -/
theorem js_sub_rounds : js_sub (some (-9007199254740992)) 1 = some (-9007199254740992) := by
  rfl

/-- What `new_attachment` does: it never throws, and appends to the log the
removal of an existing dialog and then the uploader with its options. -/
theorem new_attachment_eq (me : Attachments) :
    new_attachment me = .ok
      { me with
        log := (me.log ++ if me.dialog then [Event.dialog_remove] else []) ++
          [Event.file_uploader
            { doctype := me.frm.doctype, docname := me.frm.docname,
              folder := "Home/Attachments",
              max_number_of_files := js_sub me.frm.max_attachments (get_attachments me).length }] } := by
  unfold new_attachment
  by_cases hd : me.dialog = true
  · simp [hd, get_attachments]
  · simp [hd]

/-- C9 (counterexample): with `max_attachments = 5` and two attachments that
share one file name, the uploader gets `max_number_of_files = 3`, while
`max_attachments` minus the de-duplicated count is `4`. And the subtraction is
the one of JavaScript numbers: with `max_attachments = -2^53` and one
attachment the uploader gets `-2^53`, not `-2^53 - 1`. -/
theorem new_attachment_quota_not_deduplicated :
    new_attachment (sample (some 5) (some [plain "F1" "a.png", plain "F2" "a.png"])) = .ok
      { sample (some 5) (some [plain "F1" "a.png", plain "F2" "a.png"]) with
        log := [Event.file_uploader
          { doctype := "ToDo", docname := "TD-1", folder := "Home/Attachments",
            max_number_of_files := some 3 }] } ∧
    (5 : Int) - (deduplicated_count [plain "F1" "a.png", plain "F2" "a.png"] : Int) = 4 ∧
    new_attachment (sample (some (-9007199254740992)) (some [plain "F1" "a.png"])) = .ok
      { sample (some (-9007199254740992)) (some [plain "F1" "a.png"]) with
        log := [Event.file_uploader
          { doctype := "ToDo", docname := "TD-1", folder := "Home/Attachments",
            max_number_of_files := some (-9007199254740992) }] } ∧
    (-9007199254740992 : Int) - (deduplicated_count [plain "F1" "a.png"] : Int)
      = -9007199254740993 := by
  refine ⟨rfl, by decide, rfl, by decide⟩

/-- C9 (amended): for every attachment list and every configured
`max_attachments` whose difference with the number of entries of the list has
magnitude at most `2^53`, `new_attachment` passes to the uploader a
`max_number_of_files` restriction equal to `max_attachments` minus the number
of entries of the attachment list (its length, duplicates of a file name
included). -/
theorem new_attachment_quota (me : Attachments) (m : Int)
    (hm : me.frm.max_attachments = some m)
    (hlo : -(2 : Int) ^ 53 ≤ m - ((get_attachments me).length : Int))
    (hhi : m - ((get_attachments me).length : Int) ≤ (2 : Int) ^ 53) :
    ∃ me1 opts, new_attachment me = .ok me1 ∧
      me1.log = (me.log ++ if me.dialog then [Event.dialog_remove] else []) ++
        [Event.file_uploader opts] ∧
      opts.max_number_of_files = some (m - ((get_attachments me).length : Int)) := by
  refine ⟨_, _, new_attachment_eq me, rfl, ?_⟩
  show js_sub me.frm.max_attachments (get_attachments me).length = _
  rw [hm]
  apply js_sub_exact
  omega

/-- C9 (witness): a limit of five and two attachments of one file name: the
restriction is three. -/
theorem new_attachment_quota_witness :
    ∃ me1 opts,
      new_attachment (sample (some 5) (some [plain "F1" "a.png", plain "F2" "a.png"]))
        = .ok me1 ∧
      me1.log = ((sample (some 5) (some [plain "F1" "a.png", plain "F2" "a.png"])).log ++
          if (sample (some 5) (some [plain "F1" "a.png", plain "F2" "a.png"])).dialog
          then [Event.dialog_remove] else []) ++ [Event.file_uploader opts] ∧
      opts.max_number_of_files = some (5 - ((get_attachments
        (sample (some 5) (some [plain "F1" "a.png", plain "F2" "a.png"]))).length : Int)) :=
  new_attachment_quota (sample (some 5) (some [plain "F1" "a.png", plain "F2" "a.png"])) 5 rfl
    (by decide) (by decide)

/-- C10 (counterexample): `max_attachments = 1` and one attachment, so the
set is at the cap. `new_attachment` returns normally, no error is raised, and
the upload flow is opened (with a restriction of `0` files). -/
theorem new_attachment_at_cap_opens :
    new_attachment (sample (some 1) (some [plain "F1" "a.png"])) = .ok
      { sample (some 1) (some [plain "F1" "a.png"]) with
        log := [Event.file_uploader
          { doctype := "ToDo", docname := "TD-1", folder := "Home/Attachments",
            max_number_of_files := some 0 }] } := by
  rfl

/-- C10 (amended): for every document type with a positive `max_attachments`
and every attachment set already at that cap, `max_reached(true)` raises the
limit-reached error (a pure check: no upload flow, no network call);
`new_attachment` does not make that check: it raises nothing, sends no server
call itself, and opens the upload flow with a `max_number_of_files`
restriction of `max_attachments` minus the number of entries, which is at
most `0`. -/
theorem limit_raised_by_max_reached_only (me : Attachments) (m : Int)
    (hm : me.frm.max_attachments = some m) (hpos : 0 < m)
    (hcap : m ≤ ((get_attachments me).length : Int)) :
    max_reached me true = .error (.limit_reached "Attachment Limit Reached" m) ∧
    ∃ me1 opts, new_attachment me = .ok me1 ∧
      me1.log = (me.log ++ if me.dialog then [Event.dialog_remove] else []) ++
        [Event.file_uploader opts] ∧
      opts.max_number_of_files = some (m - ((get_attachments me).length : Int)) ∧
      m - ((get_attachments me).length : Int) ≤ 0 := by
  constructor
  · unfold max_reached
    have hne : m ≠ 0 := by omega
    simp [hm, limit_set, count_ge, hne, hcap]
  · refine ⟨_, _, new_attachment_eq me, rfl, ?_, by omega⟩
    show js_sub me.frm.max_attachments (get_attachments me).length = _
    rw [hm]
    simp only [js_sub]
    split
    · rw [to_double_exact]
      omega
    · rfl

/-- C10 (witness): a limit of one attachment and a set holding one. -/
theorem limit_raised_by_max_reached_only_witness :
    max_reached (sample (some 1) (some [plain "F1" "a.png"])) true
      = .error (.limit_reached "Attachment Limit Reached" 1) ∧
    ∃ me1 opts, new_attachment (sample (some 1) (some [plain "F1" "a.png"])) = .ok me1 ∧
      me1.log = ((sample (some 1) (some [plain "F1" "a.png"])).log ++
          if (sample (some 1) (some [plain "F1" "a.png"])).dialog
          then [Event.dialog_remove] else []) ++ [Event.file_uploader opts] ∧
      opts.max_number_of_files =
        some (1 - ((get_attachments (sample (some 1) (some [plain "F1" "a.png"]))).length : Int)) ∧
      1 - ((get_attachments (sample (some 1) (some [plain "F1" "a.png"]))).length : Int) ≤ 0 :=
  limit_raised_by_max_reached_only (sample (some 1) (some [plain "F1" "a.png"])) 1 rfl
    (by decide) (by decide)

/-! ## Uniqueness of ids (C11) -/

/-- C11: uniqueness of ids is kept by the two mutations of the manager. For
every set in which no two attachments share an id, the set after
`add_to_attachments(a)`, for any attachment `a`, and the set after
`remove_fileid(x)`, for any id `x` (which does not throw), again contains no
two attachments with the same id. -/
theorem ids_stay_unique (me : Attachments) (a : Attachment) (x : String)
    (h : ((get_attachments me).map fun b => b.name).Nodup) :
    ((get_attachments (add_to_attachments me a)).map fun b => b.name).Nodup ∧
    ∃ me1, remove_fileid me x = .ok me1 ∧
      ((get_attachments me1).map fun b => b.name).Nodup := by
  constructor
  · cases hl : me.frm.attachments with
    | none =>
      have : add_to_attachments me a = me := by
        unfold add_to_attachments
        simp [hl, get_attachments]
      rw [this]; exact h
    | some l =>
      have hg : get_attachments me = l := by simp [get_attachments, hl]
      rw [hg] at h
      by_cases hx : ∃ b ∈ l, b.name = a.name
      · have := add_to_attachments_known me l a hl hx
        simp only [get_attachments, this]
        exact h
      · have hx2 : ∀ b ∈ l, b.name ≠ a.name := fun b hb e => hx ⟨b, hb, e⟩
        have := add_to_attachments_new me l a hl hx2
        simp only [get_attachments, this, List.map_append, List.map_cons, List.map_nil]
        rw [List.nodup_append]
        refine ⟨h, List.nodup_singleton _, ?_⟩
        intro n hn hn2
        obtain ⟨b, hb, hbn⟩ := List.mem_map.mp hn
        rw [List.mem_singleton] at hn2
        exact hx2 b hb (hbn.trans hn2)
  · obtain ⟨me1, h1, hset⟩ := remove_fileid_ok me x
    refine ⟨me1, h1, ?_⟩
    rw [hset]
    exact h.sublist (List.Sublist.map _ (List.filter_sublist _))

/-- C11 (witness): a set with the ids `F1` and `F2`; `F3` is added, `F1` is
removed. -/
theorem ids_stay_unique_witness :
    ((get_attachments (add_to_attachments
        (sample none (some [plain "F1" "a.png", plain "F2" "a.png"]))
        (plain "F3" "b.png"))).map fun b => b.name).Nodup ∧
    ∃ me1, remove_fileid (sample none (some [plain "F1" "a.png", plain "F2" "a.png"])) "F1"
        = .ok me1 ∧
      ((get_attachments me1).map fun b => b.name).Nodup :=
  ids_stay_unique (sample none (some [plain "F1" "a.png", plain "F2" "a.png"]))
    (plain "F3" "b.png") "F1" (by decide)

/-! ## The local insert (C12) -/

/-- With a held list and a truthy id that is new, `update_attachment` leaves
the old list with the attachment appended. -/
theorem update_attachment_held (me : Attachments) (l : List Attachment) (a : Attachment)
    (hl : me.frm.attachments = some l) (hx : ∀ b ∈ l, b.name ≠ a.name) (hne : a.name ≠ "") :
    ∃ me1, update_attachment me a = .ok me1 ∧ get_attachments me1 = l ++ [a] := by
  unfold update_attachment
  simp only [hne, ne_eq, not_false_eq_true, if_true]
  obtain ⟨m, hm, hfrm, -⟩ := refresh_ok (add_to_attachments me a)
  refine ⟨m, hm, ?_⟩
  simp only [get_attachments, hfrm, add_to_attachments_new me l a hl hx]

/-- C12: when the document-info cache holds no attachment list, the local
insert is lost. The uploaded attachment has the non-empty id `F1`, which is
not in the (empty) set; after `update_attachment` the set returned by
`get_attachments` is still empty and holds no entry with that id, where the
claim asks for the previous set with the attachment appended. -/
theorem update_attachment_lost_without_list :
    (update_attachment (sample none none) (plain "F1" "a.png")).map get_attachments
      = .ok [] := by
  rfl

/-! ## Unsaved documents (C13) -/

/-- C13: when the owning document is unsaved (`doc.__islocal` set), `refresh`
hides the attachment section and does nothing else, whatever the set
contains: no row is rendered. When the document is saved, `refresh` shows the
section. -/
theorem refresh_visibility (me : Attachments) :
    (me.frm.islocal = true →
      refresh me = .ok { me with dom := { me.dom with parent_visible := false } }) ∧
    (me.frm.islocal = false →
      ∃ me1, refresh me = .ok me1 ∧ me1.dom.parent_visible = true) := by
  constructor
  · intro h
    unfold refresh
    simp [h]
    rfl
  · intro h
    obtain ⟨me1, h1, hv, -⟩ := refresh_saved me h
    exact ⟨me1, h1, hv⟩

/-- C13 (witness): the same set of two attachments under an unsaved and under
a saved document. -/
theorem refresh_visibility_witness :
    refresh { sample none (some [plain "F1" "a.png", plain "F2" "b.png"]) with
        frm := { (sample none (some [plain "F1" "a.png", plain "F2" "b.png"])).frm with
                 islocal := true } }
      = .ok { sample none (some [plain "F1" "a.png", plain "F2" "b.png"]) with
        frm := { (sample none (some [plain "F1" "a.png", plain "F2" "b.png"])).frm with
                 islocal := true },
        dom := { parent_visible := false, add_attachment_visible := true,
                 has_attachments := false, rows := [] } } ∧
    ∃ me1, refresh (sample none (some [plain "F1" "a.png", plain "F2" "b.png"])) = .ok me1 ∧
      me1.dom.parent_visible = true :=
  ⟨(refresh_visibility
      { sample none (some [plain "F1" "a.png", plain "F2" "b.png"]) with
        frm := { (sample none (some [plain "F1" "a.png", plain "F2" "b.png"])).frm with
                 islocal := true } }).1 rfl,
   (refresh_visibility (sample none (some [plain "F1" "a.png", plain "F2" "b.png"]))).2 rfl⟩

/-! ## No limit (C14) -/

/-- C14: when `max_attachments` is `0` or absent, `max_reached` returns false
for every attachment list and for both values of `raise_exception`; it never
raises the limit-reached error. -/
theorem max_reached_unlimited (me : Attachments) (raise_exception : Bool)
    (h : me.frm.max_attachments = none ∨ me.frm.max_attachments = some 0) :
    max_reached me raise_exception = .ok false := by
  unfold max_reached
  rcases h with h | h <;> simp [h, limit_set]

/-- C14 (witness): a limit of `0`, three attachments, `raise_exception` set. -/
theorem max_reached_unlimited_witness :
    max_reached (sample (some 0)
      (some [plain "F1" "a.png", plain "F2" "b.png", plain "F3" "c.png"])) true = .ok false :=
  max_reached_unlimited _ true (Or.inr rfl)

/-! ## No literal `#` (C15) -/

theorem hex_digit_ne_hash (d : Nat) (h : d < 16) : hex_digit d ≠ '#' := by
  have key : ∀ d, d < 16 →
      (if d < 10 then Char.ofNat (48 + d) else Char.ofNat (55 + d)) ≠ '#' := by decide
  exact key d h

theorem utf8_bytes_lt (n : Nat) (h : n < 0x110000) : ∀ b ∈ utf8_bytes n, b < 256 := by
  intro b hb
  unfold utf8_bytes at hb
  split at hb
  · simp at hb; omega
  · split at hb
    · simp at hb; omega
    · split at hb
      · simp at hb; omega
      · simp at hb; omega

theorem char_toNat_lt (c : Char) : c.toNat < 0x110000 := by
  have := c.valid
  unfold Char.toNat
  rcases this with h | ⟨_, h⟩
  · have : c.val.toNat < 0xd800 := h
    omega
  · exact h

theorem percent_byte_no_hash (b : Nat) (h : b < 256) : '#' ∉ percent_byte b := by
  unfold percent_byte
  have h1 := hex_digit_ne_hash (b / 16) (by omega)
  have h2 := hex_digit_ne_hash (b % 16) (by omega)
  simp only [List.mem_cons, List.mem_singleton, List.not_mem_nil, or_false, not_or]
  exact ⟨by decide, fun e => h1 e.symm, fun e => h2 e.symm⟩

theorem encode_char_no_hash (c : Char) (h : c ≠ '#') : '#' ∉ encode_char c := by
  unfold encode_char
  split
  · simpa using fun e => h e.symm
  · rw [List.mem_flatMap]
    rintro ⟨b, hb, hmem⟩
    exact percent_byte_no_hash b (utf8_bytes_lt c.toNat (char_toNat_lt c) b hb) hmem

theorem flatMap_replace_id (l : List Char) (h : '#' ∉ l) :
    (l.flatMap fun c => if c = '#' then ['%', '2', '3'] else [c]) = l := by
  induction l with
  | nil => rfl
  | cons x xs ih =>
    have hx : x ≠ '#' := fun e => h (by simp [e])
    have hxs : '#' ∉ xs := fun e => h (by simp [e])
    simp [List.flatMap_cons, hx, ih hxs]

/-- The encoding `get_file_url` applies works character by character. -/
theorem replace_hash_encodeURI (u : String) :
    replace_hash (encodeURI u) = String.mk (u.data.flatMap escape_char) := by
  unfold replace_hash encodeURI
  congr 1
  simp only [List.flatMap_assoc]
  congr 1
  funext c
  unfold escape_char
  by_cases hc : c = '#'
  · subst hc
    decide
  · simp only [hc, if_false]
    exact flatMap_replace_id _ (encode_char_no_hash c hc)

theorem escape_char_no_hash (c : Char) : '#' ∉ escape_char c := by
  unfold escape_char
  split
  · decide
  · rename_i hc
    exact encode_char_no_hash c hc

/-- C15: for every attachment (each has a `file_name`, and possibly a
`file_url`), the string returned by `get_file_url` contains no literal `#`;
the output is the input URL with every character replaced by its own block,
`%23` for each `#` and the `encodeURI` encoding for the others; and for the
`file_url` `/files/a#b.png` the result is `/files/a%23b.png`. -/
theorem get_file_url_no_hash (attachment : Attachment) :
    '#' ∉ (get_file_url attachment).data ∧
    get_file_url attachment =
      String.mk ((spec_unencoded_url attachment).data.flatMap escape_char) ∧
    get_file_url { attachment with file_url := some "/files/a#b.png" } = "/files/a%23b.png" := by
  have hform : get_file_url attachment =
      String.mk ((spec_unencoded_url attachment).data.flatMap escape_char) := by
    rw [get_file_url_unencoded, replace_hash_encodeURI]
  refine ⟨?_, hform, rfl⟩
  rw [hform]
  simp only [List.mem_flatMap, not_exists, not_and]
  intro c _
  exact escape_char_no_hash c

/-! ## The modules page (C16, C17) -/

theorem shown_fields (c : Prop) [Decidable c] (x : Item) :
    (if c then { x with shown := true } else x).route = x.route ∧
    (if c then { x with shown := true } else x).type = x.type ∧
    (if c then { x with shown := true } else x).name = x.name ∧
    (if c then { x with shown := true } else x).doctype = x.doctype := by
  split <;> exact ⟨rfl, rfl, rfl, rfl⟩

/-- The array of links grows by the name of a `doctype` item and by nothing
else. -/
theorem process_item_links (env : Env) (links : List String) (ro : Option Options)
    (item : Item) :
    (process_item env links ro item).1.1 =
      links ++ if item.type = some "doctype" then [item.name] else [] := by
  unfold process_item
  by_cases h : item.type = some "doctype" <;> simp [h]

/-- The mutated item does not depend on the globals threaded through. -/
theorem process_item_snd (env : Env) (links : List String) (ro : Option Options)
    (item : Item) :
    (process_item env links ro item).2 = (process_item env [] none item).2 := by
  unfold process_item
  by_cases h3 : item.type = some "doctype"
  · by_cases h1 : truthy item.route = true
    · simp only [h3, h1, if_true, if_false, Bool.not_true, Bool.not_false,
        Bool.false_eq_true, reduceIte]
    · by_cases h2 : truthy item.link = true
      · simp only [h3, h1, h2, if_true, if_false, Bool.not_true, Bool.not_false,
        Bool.false_eq_true, reduceIte]
      · by_cases h7 : env.is_single item.name = true
        · simp only [h3, h1, h2, h7, js_str, if_true, if_false, Bool.not_true, Bool.not_false,
        Bool.false_eq_true, reduceIte]
        · simp only [h3, h1, h2, h7, js_str, if_true, if_false, Bool.not_true, Bool.not_false,
        Bool.false_eq_true, reduceIte]
  · by_cases h1 : truthy item.route = true
    · simp only [h3, h1, if_true, if_false, Bool.not_true, Bool.not_false,
        Bool.false_eq_true, reduceIte]
    · by_cases h2 : truthy item.link = true
      · simp only [h3, h1, h2, if_true, if_false, Bool.not_true, Bool.not_false,
        Bool.false_eq_true, reduceIte]
      · simp only [h3, h1, h2, if_true, if_false, Bool.not_true, Bool.not_false,
        Bool.false_eq_true, reduceIte]
        split_ifs <;> rfl

theorem process_item_keeps (env : Env) (item : Item) :
    (process_item env [] none item).2.type = item.type ∧
    (process_item env [] none item).2.name = item.name := by
  unfold process_item
  simp only [shown_fields]
  cases hro : item.route_options <;>
    by_cases h1 : truthy item.route = true <;> by_cases h2 : truthy item.link = true <;>
    by_cases h3 : item.type = some "doctype" <;> by_cases h4 : item.type = some "report" <;>
    by_cases h5 : item.type = some "page" <;> by_cases h6 : item.is_query_report = true <;>
    by_cases h7 : env.is_single item.name = true <;> simp_all [js_str]

theorem process_item_doctype (env : Env) (item : Item) (h : item.type = some "doctype") :
    (process_item env [] none item).2.doctype = some item.name := by
  unfold process_item
  simp only [shown_fields]
  cases hro : item.route_options <;>
    by_cases h1 : truthy item.route = true <;> by_cases h2 : truthy item.link = true <;>
    by_cases h7 : env.is_single item.name = true <;> simp_all [js_str]

theorem join_from_eq (R : String) (kv : String × String) (rest : Options) :
    join_from "&" R (jquery_map (kv :: rest) fun value key =>
        encodeURIComponent key ++ "=" ++ encodeURIComponent value) =
      R ++ "&" ++ spec_query (kv :: rest) := by
  induction rest generalizing R kv with
  | nil =>
    obtain ⟨k, v⟩ := kv
    simp [jquery_map, join_from, spec_query]
  | cons kv2 rest ih =>
    obtain ⟨k, v⟩ := kv
    have := ih (R ++ "&" ++ (encodeURIComponent k ++ "=" ++ encodeURIComponent v)) kv2
    simp only [jquery_map, join_from, spec_query] at this ⊢
    rw [this]
    simp only [String.append_assoc]

/-- The text the code appends after `?` is the `&`-joined encoded pairs. -/
theorem query_string_eq (opts : Options) : query_string opts = spec_query opts := by
  unfold query_string
  cases opts with
  | nil => rfl
  | cons kv rest =>
    obtain ⟨k, v⟩ := kv
    cases rest with
    | nil => simp [jquery_map, array_join, join_from, spec_query]
    | cons kv2 rest =>
      have := join_from_eq (encodeURIComponent k ++ "=" ++ encodeURIComponent v) kv2 rest
      simp only [jquery_map, array_join, spec_query] at this ⊢
      rw [this]

theorem process_item_route (env : Env) (item : Item) :
    (process_item env [] none item).2.route = spec_route env item := by
  unfold process_item spec_route spec_plain_route
  simp only [shown_fields, query_string_eq]
  cases hro : item.route_options <;>
    by_cases h1 : truthy item.route = true <;> by_cases h2 : truthy item.link = true <;>
    by_cases h3 : item.type = some "doctype" <;> by_cases h4 : item.type = some "report" <;>
    by_cases h5 : item.type = some "page" <;> by_cases h6 : item.is_query_report = true <;>
    by_cases h7 : env.is_single item.name = true <;> simp_all [js_str]

theorem process_items_eq (env : Env) (links : List String) (ro : Option Options)
    (items : List Item) :
    (process_items env links ro items).1.1 =
      links ++ (items.filter fun i => i.type = some "doctype").map (fun i => i.name) ∧
    (process_items env links ro items).2 =
      items.map fun i => (process_item env [] none i).2 := by
  induction items generalizing links ro with
  | nil => simp [process_items]
  | cons item rest ih =>
    obtain ⟨ih1, ih2⟩ := ih (process_item env links ro item).1.1
      (process_item env links ro item).1.2
    have hs := process_item_snd env links ro item
    have hl := process_item_links env links ro item
    simp only [process_items, List.map_cons, List.filter_cons]
    refine ⟨?_, ?_⟩
    · rw [ih1, hl]
      by_cases h : item.type = some "doctype" <;> simp [h]
    · rw [ih2, hs]

theorem process_sections_eq (env : Env) (links : List String) (ro : Option Options)
    (data : List Section) :
    (process_sections env links ro data).1.1 =
      links ++ ((data.flatMap fun s => s.items).filter
        fun i => i.type = some "doctype").map (fun i => i.name) ∧
    (process_sections env links ro data).2 =
      data.map fun s => { items := s.items.map fun i => (process_item env [] none i).2 } := by
  induction data generalizing links ro with
  | nil => simp [process_sections]
  | cons sec rest ih =>
    obtain ⟨ih1, ih2⟩ := ih (process_items env links ro sec.items).1.1
      (process_items env links ro sec.items).1.2
    obtain ⟨h1, h2⟩ := process_items_eq env links ro sec.items
    simp only [process_sections, List.map_cons, List.flatMap_cons, List.filter_append,
      List.map_append]
    refine ⟨?_, ?_⟩
    · rw [ih1, h1, List.append_assoc]
    · rw [ih2, h2]

/-- C16: for every module name and every module data, after
`process_data(module_name, data)` the entry `frappe.module_links[module_name]`
is exactly the list of the names of the items whose type is `doctype`, in
section-then-item order, whatever an earlier call left there; the items keep
their place, type and name; and each item of type `doctype` has its `doctype`
field set to its name. -/
theorem process_data_module_links (env : Env) (g : Globals) (module_name : String)
    (data : List Section) :
    (process_data env g module_name data).1.module_links module_name =
      some (((data.flatMap fun s => s.items).filter
        fun i => i.type = some "doctype").map fun i => i.name) ∧
    ((process_data env g module_name data).2.map fun s => s.items.map fun i => (i.type, i.name))
      = (data.map fun s => s.items.map fun i => (i.type, i.name)) ∧
    ∀ s ∈ (process_data env g module_name data).2, ∀ i ∈ s.items,
      i.type = some "doctype" → i.doctype = some i.name := by
  obtain ⟨h1, h2⟩ := process_sections_eq env [] g.route_options data
  refine ⟨?_, ?_, ?_⟩
  · simp [process_data, h1]
  · simp only [process_data, h2, List.map_map]
    apply List.map_congr_left
    intro s _
    simp only [Function.comp, List.map_map]
    apply List.map_congr_left
    intro i _
    simp [Function.comp, (process_item_keeps env i).1, (process_item_keeps env i).2]
  · intro s hs i hi ht
    simp only [process_data, h2, List.mem_map] at hs
    obtain ⟨s0, -, rfl⟩ := hs
    simp only [List.mem_map] at hi
    obtain ⟨i0, -, rfl⟩ := hi
    obtain ⟨hk1, hk2⟩ := process_item_keeps env i0
    rw [hk1] at ht
    rw [hk2]
    exact process_item_doctype env i0 ht

/-- C17: for every item handled by `process_data`, the route it ends with is
the one the specification describes. Without `route_options`: a route the
item already has (a truthy one) is left unchanged; otherwise a link gives
`strip(link, "#")`; otherwise the type decides: `doctype` gives `Form/` + name
when the doctype is single and `List/` + name when not, a query report gives
`query-report/` + name, any other report `List/` + doctype + `/Report/` + name,
a page its name, and any other type leaves the item without a route. With
`route_options` the route is that value (as JavaScript concatenates it)
followed by `?` and the `&`-joined URI-component-encoded `key=value` pairs.
The second part evaluates the code on data with one item for each case. -/
theorem process_data_routes (env : Env) (g : Globals) (module_name : String)
    (data : List Section) :
    ((process_data env g module_name data).2.map fun s => s.items.map fun i => i.route) =
      (data.map fun s => s.items.map (spec_route env)) ∧
    ((process_data sample_env g module_name sample_data).2.map
        fun s => s.items.map fun i => i.route) =
      [ [ some "List/ToDo", some "Form/System Settings", some "query-report/R1",
          some "List/ToDo/Report/R2", some "List/undefined/Report/R3", some "backups" ],
        [ none, some "x/y", some "modules/Desk",
          some "List/Note?status=Open%20%26%20new&a%20b=%C3%A9", some "undefined?k=v",
          some "P3?" ] ] := by
  constructor
  · obtain ⟨-, h2⟩ := process_sections_eq env [] g.route_options data
    simp only [process_data, h2, List.map_map]
    apply List.map_congr_left
    intro s _
    simp only [Function.comp, List.map_map]
    apply List.map_congr_left
    intro i _
    simp [Function.comp, process_item_route env i]
  · rfl

end Frappe
